import Mathlib

/-!
Verification of the Offer Reconciliation Engine of the
robosats-whatsapp-notifier repository.

The JavaScript source is embedded shallowly:

* `offerTracker.js` (class `OfferTracker`) becomes pure functions over an
  association-list store (`Store`), mirroring the insertion-order semantics
  of a JavaScript `Map`, together with a `TrackerState` that carries the
  serialized on-disk document and a count of durable saves.
* `index.js` (`checkForNewOffersInternal` / `checkForNewOffers`) becomes a
  pure cycle function that takes the aggregated offer list as input and
  returns the new tracker state together with the list of offer ids for
  which a notification was sent.
* `robosatsClient.js` (`getOrderBookFromCoordinator` / `getOrderBook`,
  current version) becomes a fold over per-coordinator fetch outcomes that
  produces the merged offer list and the reachable-coordinator set.

JavaScript number quirks that the code depends on are modelled explicitly:
`new Date(s).getTime()` yields `NaN` (it does not throw) when `s` does not
parse, `JSON.stringify` turns `NaN` into `null`, `null <= n` coerces `null`
to `0`, and `NaN <= n` is always false.  These are captured by `JsNum`.
-/

/-- A JavaScript number as this program produces it: an integer timestamp,
`NaN` (result of `new Date(bad).getTime()`), or `null` (what `NaN` becomes
after a `JSON.stringify` / `JSON.parse` round trip). -/
inductive JsNum where
  | int : Int → JsNum
  | nan : JsNum
  | null : JsNum
deriving DecidableEq

/-- JavaScript `<=` on the numbers above: `null` coerces to `0`, any
comparison with `NaN` is false. -/
def jsLe : JsNum → JsNum → Bool
  | JsNum.int a, JsNum.int b => a ≤ b
  | JsNum.null, JsNum.int b => (0 : Int) ≤ b
  | JsNum.int a, JsNum.null => a ≤ (0 : Int)
  | JsNum.null, JsNum.null => true
  | JsNum.nan, _ => false
  | _, JsNum.nan => false

/-- A JavaScript `Map` key as this program produces it: an integer offer id,
`NaN` (what `parseInt` returns on a non-numeric string), or a string. -/
inductive JsKey where
  | num : Int → JsKey
  | nan : JsKey
  | str : String → JsKey
deriving DecidableEq

/-- The in-memory notification record stored per offer id by
`OfferTracker` (fields `expiresAt`, `messageId`, `sentAt`; the snapshot
record shape has no source/coordinator field). -/
structure Record where
  expiresAt : JsNum
  messageId : Option String
  sentAt : Option Int
deriving DecidableEq

/-- One offer as consumed by the engine: the fields of the API order object
that the reconciliation logic reads (`id`, the coordinator tag added by
`getOrderBook`, `currency`, and the optional `expires_at` string). -/
structure Offer where
  id : Int
  coordinator : String
  currency : Int
  expires_at : Option String
deriving DecidableEq

/-- The map `this.seenOffers`, a JavaScript `Map` in insertion order. -/
abbrev Store := List (JsKey × Record)

/-- Embeds `map.has(k)`. -/
def mapHas (s : Store) (k : JsKey) : Bool :=
  s.any (fun p => p.1 = k)

/-- Embeds `map.set(k, v)`: updates the value in place if the key is present
(keeping its position), otherwise appends. -/
def mapSet (s : Store) (k : JsKey) (v : Record) : Store :=
  if mapHas s k then s.map (fun p => if p.1 = k then (k, v) else p)
  else s ++ [(k, v)]

/-- Number of entries of the store carrying a given key. -/
def countKey (s : Store) (k : JsKey) : Nat :=
  (s.filter (fun p => p.1 = k)).length

/-- The constant `this.defaultMaxAge = 24 * 60 * 60 * 1000` (24 hours, ms). -/
def defaultMaxAge : Int := 24 * 60 * 60 * 1000

/-- The expiry computed by `markAsSeen`: `new Date(offer.expires_at)
.getTime()` when `offer.expires_at` is truthy (the constructor never
throws, so an unparseable string silently yields `NaN` and the catch-block
fallback is dead code), else `now + defaultMaxAge`.  `parseDate` models the
JavaScript date parser, returning `none` exactly when the parse fails. -/
def resolveExpiry (parseDate : String → Option Int) (now : Int) (o : Offer) : JsNum :=
  match o.expires_at with
  | some s =>
      if s = "" then JsNum.int (now + defaultMaxAge)
      else
        match parseDate s with
        | some t => JsNum.int t
        | none => JsNum.nan
  | none => JsNum.int (now + defaultMaxAge)

/-- Embeds `OfferTracker.markAsSeen(offer, messageId = null)`. -/
def markAsSeen (parseDate : String → Option Int) (now : Int) (o : Offer)
    (messageId : Option String) (s : Store) : Store :=
  mapSet s (JsKey.num o.id) ⟨resolveExpiry parseDate now o, messageId, some now⟩

/-- Embeds `OfferTracker.isNew(offerId)`. -/
def isNew (s : Store) (k : JsKey) : Bool :=
  !mapHas s k

/-- Embeds `OfferTracker.getNewOffers(offers)`. -/
def getNewOffers (s : Store) (offers : List Offer) : List Offer :=
  offers.filter (fun o => isNew s (JsKey.num o.id))

/-- The store after `offers.forEach(offer => this.markAsSeen(offer))`
inside `OfferTracker.addOffers` (so each `messageId` is `null`). -/
def addOffersStore (parseDate : String → Option Int) (now : Int)
    (s : Store) (offers : List Offer) : Store :=
  offers.foldl (fun acc o => markAsSeen parseDate now o none acc) s

/-- An on-disk value of `seen_offers.json`: either a bare expiry number
(legacy format) or a full record object. -/
inductive DiskVal where
  | num : Int → DiskVal
  | record : Record → DiskVal
deriving DecidableEq

/-- Effect of `JSON.stringify` on a record number: `NaN` serializes as `null`. -/
def jsonNum : JsNum → JsNum
  | JsNum.nan => JsNum.null
  | x => x

/-- The on-disk shape of one record. -/
def serializeRecord (r : Record) : Record :=
  ⟨jsonNum r.expiresAt, r.messageId, r.sentAt⟩

/-- Tracker state: the in-memory map, the persisted document, and how many
durable writes have been performed. -/
structure TrackerState where
  seenOffers : Store
  disk : List (String × DiskVal)
  saves : Nat
deriving DecidableEq

/-- Decimal digits of a natural number, most significant first, computed
with structural fuel so that the kernel can evaluate it. -/
def toDigitsFuel : Nat → Nat → List Nat
  | 0, _ => []
  | fuel + 1, n => if n < 10 then [n] else toDigitsFuel fuel (n / 10) ++ [n % 10]

/-- Decimal digits of a natural number, most significant first. -/
def toDigits (n : Nat) : List Nat :=
  toDigitsFuel (n + 1) n

/-- Value of a most-significant-first digit list. -/
def ofDigits (ds : List Nat) : Nat :=
  ds.foldl (fun a d => a * 10 + d) 0

/-- The character of one decimal digit. -/
def digitChar (d : Nat) : Char :=
  Char.ofNat (48 + d)

/-- Inverse of `digitChar` on actual digit characters. -/
def charDigit (c : Char) : Option Nat :=
  if 48 ≤ c.toNat ∧ c.toNat ≤ 57 then some (c.toNat - 48) else none

/-- Longest leading run of digit characters, as digits, plus the rest. -/
def takeDigits : List Char → List Nat × List Char
  | [] => ([], [])
  | c :: cs =>
      match charDigit c with
      | some d =>
          let r := takeDigits cs
          (d :: r.1, r.2)
      | none => ([], c :: cs)

/-- Decimal printing `String(n)` of an integer, i.e. how a JavaScript number key prints
when it becomes a JSON object key. -/
def intToChars (n : Int) : List Char :=
  if n < 0 then '-' :: (toDigits n.natAbs).map digitChar
  else (toDigits n.toNat).map digitChar

/-- JavaScript `parseInt(s)`: an optional sign followed by at least one
leading digit; anything else yields `NaN` (here `none`). -/
def parseIntChars (cs : List Char) : Option Int :=
  match cs with
  | [] => none
  | c :: rest =>
      if c = '-' then
        match takeDigits rest with
        | ([], _) => none
        | (d :: ds, _) => some (-(ofDigits (d :: ds) : Int))
      else if c = '+' then
        match takeDigits rest with
        | ([], _) => none
        | (d :: ds, _) => some ((ofDigits (d :: ds) : Int))
      else
        match takeDigits (c :: rest) with
        | ([], _) => none
        | (d :: ds, _) => some ((ofDigits (d :: ds) : Int))

/-- Embeds `parseInt` on a string. -/
def parseIntJs (s : String) : Option Int :=
  parseIntChars s.data

/-- How a `Map` key prints when the map is converted to a plain JSON
object by `save` (`obj[offerId] = value`): numbers print in decimal,
the `NaN` key prints as the string `NaN`. -/
def keyToString : JsKey → String
  | JsKey.num n => String.mk (intToChars n)
  | JsKey.nan => "NaN"
  | JsKey.str s => s

/-- Embeds `parseInt(offerId)` applied to a reloaded JSON object key, as in
`OfferTracker.initialize`: a non-numeric key collapses to the `NaN` key. -/
def keyOfString (s : String) : JsKey :=
  match parseIntJs s with
  | some n => JsKey.num n
  | none => JsKey.nan

/-- Embeds `OfferTracker.save()`: the `Map` converted entry by entry to a plain
object and written to disk. -/
def serializeStore (s : Store) : List (String × DiskVal) :=
  s.map (fun p => (keyToString p.1, DiskVal.record (serializeRecord p.2)))

/-- Embeds `save()` on the full tracker state: one durable write of the whole
store. -/
def saveTracker (st : TrackerState) : TrackerState :=
  { st with disk := serializeStore st.seenOffers, saves := st.saves + 1 }

/-- Embeds `OfferTracker.cleanupExpiredOffers()`: delete every entry whose
`expiresAt <= now` (JavaScript comparison), return the count removed,
and `save()` if anything was removed. -/
def cleanupExpiredOffers (now : Int) (st : TrackerState) : TrackerState × Nat :=
  let kept := st.seenOffers.filter (fun p => !jsLe p.2.expiresAt (JsNum.int now))
  let removedCount :=
    (st.seenOffers.filter (fun p => jsLe p.2.expiresAt (JsNum.int now))).length
  if 0 < removedCount then (saveTracker { st with seenOffers := kept }, removedCount)
  else ({ st with seenOffers := kept }, removedCount)

/-- Embeds `value.messageId || null`: the empty string is falsy. -/
def jsOrNullStr : Option String → Option String
  | none => none
  | some s => if s = "" then none else some s

/-- Embeds `value.sentAt || null`: zero is falsy. -/
def jsOrNullInt : Option Int → Option Int
  | none => none
  | some x => if x = 0 then none else some x

/-- Normalisation of one reloaded new-format record in
`OfferTracker.initialize`. -/
def loadRecord (r : Record) : Record :=
  ⟨r.expiresAt, jsOrNullStr r.messageId, jsOrNullInt r.sentAt⟩

/-- Normalisation of one reloaded disk value: a bare number (old format)
becomes a record with `messageId` and `sentAt` `null`. -/
def loadDiskVal : DiskVal → Record
  | DiskVal.num t => ⟨JsNum.int t, none, none⟩
  | DiskVal.record r => loadRecord r

/-- The `Object.entries(parsed).forEach` rebuild loop of
`OfferTracker.initialize`: each key goes through `parseInt`. -/
def loadStore (disk : List (String × DiskVal)) : Store :=
  disk.foldl (fun acc p => mapSet acc (keyOfString p.1) (loadDiskVal p.2)) []

/-- Embeds `OfferTracker.initialize()` on an existing object-format file: rebuild
the map, `save()` once if any value was in the legacy bare-number format,
then run `cleanupExpiredOffers()` on startup. -/
def loadTracker (now : Int) (disk : List (String × DiskVal)) : TrackerState :=
  let loaded := loadStore disk
  let needsMigration :=
    disk.any (fun p => match p.2 with | DiskVal.num _ => true | _ => false)
  let st0 : TrackerState := ⟨loaded, disk, 0⟩
  let st1 := if needsMigration then saveTracker st0 else st0
  (cleanupExpiredOffers now st1).1

/-- Embeds `OfferTracker.addOffers(offers)`: mark each offer seen (with `null`
`messageId`) and `save()` once. -/
def addOffers (parseDate : String → Option Int) (now : Int)
    (offers : List Offer) (st : TrackerState) : TrackerState :=
  saveTracker { st with seenOffers := addOffersStore parseDate now st.seenOffers offers }

/-- Embeds `checkForNewOffersInternal` of `src/index.js` (abort flag clear, valid
configuration), with the aggregated offer list supplied as input: first
`cleanupExpiredOffers()`, then classify new offers against the already
cleaned store, send one notification per element of `newOffers` (returned
as the list of notified ids; the message object returned by the notifier
is discarded by the source), and finally `addOffers(newOffers)` when any
were found.  The cycle contains no inactive-offer processing and never
calls `deleteMessage` or `removeOffer`. -/
def checkForNewOffersInternal (parseDate : String → Option Int) (now : Int)
    (offers : List Offer) (st : TrackerState) : TrackerState × List Int :=
  let st1 := (cleanupExpiredOffers now st).1
  let newOffers := getNewOffers st1.seenOffers offers
  if 0 < newOffers.length then
    (addOffers parseDate now newOffers st1, newOffers.map (fun o => o.id))
  else (st1, [])

/-- Embeds `checkForNewOffers` of `src/index.js`: the overlap guard.  If a check
is already in progress the tick returns at once; otherwise the internal
cycle runs (the flag is set for its duration and cleared in `finally`). -/
def checkForNewOffers (parseDate : String → Option Int) (now : Int)
    (offers : List Offer) (isCheckInProgress : Bool) (st : TrackerState) :
    Bool × TrackerState × List Int :=
  if isCheckInProgress then (isCheckInProgress, st, [])
  else
    let r := checkForNewOffersInternal parseDate now offers st
    (false, r.1, r.2)

/-- A sample date parser standing in for the JavaScript `Date`
constructor: `none` models an unparseable string (`Invalid Date`). -/
def sampleParse : String → Option Int :=
  fun s => if s = "past" then some 50 else if s = "future" then some 1000000 else none

/-- The empty tracker. -/
def trackerEmpty : TrackerState := ⟨[], [], 0⟩

/-- The JSON body one coordinator returns from `GET /book/`: either an
array of offers or some other shape. -/
inductive Payload where
  | arr : List Offer → Payload
  | notArray : Payload
deriving DecidableEq

/-- Embeds `getOrderBookFromCoordinator` (current version): a network failure
propagates, and a syntactically valid but non-array body is turned into an
`INVALID_RESPONSE` error rather than an empty listing. -/
def getOrderBookFromCoordinator (resp : Except String Payload) :
    Except String (List Offer) :=
  match resp with
  | Except.error e => Except.error e
  | Except.ok (Payload.arr offers) => Except.ok offers
  | Except.ok Payload.notArray => Except.error "INVALID_RESPONSE"

/-- The merged offer list built by the result loop of `getOrderBook`:
failed coordinators contribute nothing, successful ones contribute their
offers tagged with the coordinator name, in request order. -/
def mergedOf : List (String × Except String Payload) → List Offer
  | [] => []
  | (c, resp) :: rest =>
      match getOrderBookFromCoordinator resp with
      | Except.error _ => mergedOf rest
      | Except.ok offers =>
          offers.map (fun o => { o with coordinator := c }) ++ mergedOf rest

/-- The `reachableCoordinators` set built by the same loop: exactly the
coordinators whose fetch returned a valid array (possibly empty). -/
def reachableOf : List (String × Except String Payload) → List String
  | [] => []
  | (c, resp) :: rest =>
      match getOrderBookFromCoordinator resp with
      | Except.error _ => reachableOf rest
      | Except.ok _ => c :: reachableOf rest

/-- Embeds `getOrderBook()` (current version) over the outcome of each
coordinator fetch: `{ offers, reachableCoordinators }`. -/
def getOrderBook (responses : List (String × Except String Payload)) :
    List Offer × List String :=
  (mergedOf responses, reachableOf responses)

/-- Records whose fields survive the quirks of the JSON round trip and the
falsy-value normalisation of `initialize`: a real (non-`NaN`) expiry still
in the future at reload time, no empty-string `messageId`, no zero
`sentAt`. -/
def recordWF (now : Int) (r : Record) : Prop :=
  (∃ t, r.expiresAt = JsNum.int t ∧ now < t) ∧
    r.messageId ≠ some "" ∧ r.sentAt ≠ some 0

/-- A tracker holding one expired record (offer 3, handle m3, expiry 50)
with nothing yet on disk. -/
def c1Tracker : TrackerState :=
  ⟨[(JsKey.num 3, ⟨JsNum.int 50, some "m3", some 10⟩)], [], 0⟩

/-- A tracker holding one live record (offer 5, handle m5, expiry far in
the future). -/
def c2Tracker : TrackerState :=
  ⟨[(JsKey.num 5, ⟨JsNum.int 1000000, some "m5", some 10⟩)], [], 0⟩

/-- One offer whose own `expires_at` parses to 50, i.e. already past at
`now = 100`. -/
def c3Offers : List Offer := [⟨1, "alice", 1, some "past"⟩]

/-- The same untracked offer id 7 reported by two different coordinators
in one cycle. -/
def c4Offers : List Offer := [⟨7, "alice", 1, none⟩, ⟨7, "veneto", 1, none⟩]

/-- A two-coordinator cycle: alice answers with a non-array payload,
veneto with a valid empty listing. -/
def c6Responses : List (String × Except String Payload) :=
  [("alice", Except.ok Payload.notArray), ("veneto", Except.ok (Payload.arr []))]

example : parseIntJs "123" = some 123 := by decide
example : parseIntJs "-45" = some (-45) := by decide
example : parseIntJs "abc" = none := by decide
example : parseIntJs "12abc" = some 12 := by decide
example : keyToString (JsKey.num 7) = "7" := by decide
example : keyOfString "NaN" = JsKey.nan := by decide

lemma mapHas_mapSet_self (s : Store) (k : JsKey) (v : Record) :
    mapHas (mapSet s k v) k = true := by
  unfold mapSet
  by_cases h : mapHas s k = true
  · rw [if_pos h]
    simp only [mapHas, List.any_eq_true, decide_eq_true_eq] at h ⊢
    obtain ⟨p, hp, hpk⟩ := h
    exact ⟨(k, v), List.mem_map.mpr ⟨p, hp, by simp [hpk]⟩, rfl⟩
  · rw [if_neg h]
    simp [mapHas]

lemma mapHas_mapSet_of (s : Store) (k k' : JsKey) (v : Record)
    (h : mapHas s k' = true) : mapHas (mapSet s k v) k' = true := by
  unfold mapSet
  by_cases hk : mapHas s k = true
  · rw [if_pos hk]
    simp only [mapHas, List.any_eq_true, decide_eq_true_eq] at h ⊢
    obtain ⟨p, hp, hpk⟩ := h
    by_cases hpe : p.1 = k
    · exact ⟨(k, v), List.mem_map.mpr ⟨p, hp, by simp [hpe]⟩, by simp [← hpk, hpe]⟩
    · exact ⟨p, List.mem_map.mpr ⟨p, hp, by simp [hpe]⟩, hpk⟩
  · rw [if_neg hk]
    simp only [mapHas, List.any_append]
    simp only [mapHas] at h
    simp [h]

lemma mem_mapSet (s : Store) (k : JsKey) (v : Record) (p : JsKey × Record)
    (h : p ∈ mapSet s k v) : p ∈ s ∨ p = (k, v) := by
  unfold mapSet at h
  by_cases hk : mapHas s k = true
  · rw [if_pos hk] at h
    obtain ⟨q, hq, hfq⟩ := List.mem_map.mp h
    by_cases hqe : q.1 = k
    · right; rw [← hfq]; simp [hqe]
    · left; rw [← hfq]; simpa [hqe] using hq
  · rw [if_neg hk] at h
    rcases List.mem_append.mp h with h' | h'
    · exact Or.inl h'
    · exact Or.inr (List.mem_singleton.mp h')

lemma mapHas_filter (s : Store) (q : JsKey × Record → Bool) (k : JsKey)
    (h : mapHas s k = false) : mapHas (s.filter q) k = false := by
  simp only [mapHas, List.any_eq_false, decide_eq_true_eq] at h ⊢
  intro p hp
  exact h p (List.mem_filter.mp hp).1

lemma countKey_eq_zero (s : Store) (k : JsKey) (h : mapHas s k = false) :
    countKey s k = 0 := by
  simp only [mapHas, List.any_eq_false, decide_eq_true_eq] at h
  simp only [countKey, List.length_eq_zero, List.filter_eq_nil_iff]
  intro p hp
  simpa using h p hp

lemma countKey_mapSet_not_has (s : Store) (k : JsKey) (v : Record)
    (h : mapHas s k = false) : countKey (mapSet s k v) k = countKey s k + 1 := by
  unfold mapSet
  rw [if_neg (by simp [h])]
  simp only [countKey, List.filter_append, List.length_append]
  simp

lemma countKey_map_overwrite (s : Store) (k : JsKey) (v : Record) :
    countKey (s.map (fun p => if p.1 = k then (k, v) else p)) k = countKey s k := by
  induction s with
  | nil => rfl
  | cons q rest ih =>
      simp only [countKey, List.map_cons] at ih ⊢
      by_cases hq : q.1 = k
      · rw [if_pos hq]
        simp only [List.filter_cons]
        rw [if_pos (by simp), if_pos (by simp [hq])]
        simpa using ih
      · rw [if_neg hq]
        simp only [List.filter_cons]
        rw [if_neg (by simp [hq]), if_neg (by simp [hq])]
        exact ih

lemma countKey_mapSet_has (s : Store) (k : JsKey) (v : Record)
    (h : mapHas s k = true) : countKey (mapSet s k v) k = countKey s k := by
  unfold mapSet
  rw [if_pos h]
  exact countKey_map_overwrite s k v

lemma mapHas_addOffersStore_of (parseDate : String → Option Int) (now : Int)
    (os : List Offer) (s : Store) (k : JsKey) (h : mapHas s k = true) :
    mapHas (addOffersStore parseDate now s os) k = true := by
  induction os generalizing s with
  | nil => exact h
  | cons o rest ih =>
      simp only [addOffersStore, List.foldl_cons]
      exact ih _ (mapHas_mapSet_of _ _ _ _ h)

lemma mapHas_addOffersStore_mem (parseDate : String → Option Int) (now : Int)
    (os : List Offer) (s : Store) (o : Offer) (h : o ∈ os) :
    mapHas (addOffersStore parseDate now s os) (JsKey.num o.id) = true := by
  induction os generalizing s with
  | nil => cases h
  | cons o' rest ih =>
      simp only [addOffersStore, List.foldl_cons]
      rcases List.mem_cons.mp h with h' | h'
      · subst h'
        exact mapHas_addOffersStore_of parseDate now rest _ _
          (mapHas_mapSet_self _ _ _)
      · exact ih _ h'

lemma mem_addOffersStore (parseDate : String → Option Int) (now : Int)
    (os : List Offer) (s : Store) (p : JsKey × Record)
    (h : p ∈ addOffersStore parseDate now s os) :
    p ∈ s ∨ ∃ o ∈ os, p = (JsKey.num o.id, ⟨resolveExpiry parseDate now o, none, some now⟩) := by
  induction os generalizing s with
  | nil => exact Or.inl h
  | cons o' rest ih =>
      simp only [addOffersStore, List.foldl_cons] at h
      rcases ih _ h with h' | ⟨o, ho, hp⟩
      · rcases mem_mapSet _ _ _ _ h' with h'' | h''
        · exact Or.inl h''
        · exact Or.inr ⟨o', List.mem_cons_self _ _, h''⟩
      · exact Or.inr ⟨o, List.mem_cons_of_mem _ ho, hp⟩

lemma ofDigits_append_singleton (xs : List Nat) (d : Nat) :
    ofDigits (xs ++ [d]) = ofDigits xs * 10 + d := by
  simp [ofDigits, List.foldl_append]

lemma ofDigits_toDigitsFuel (fuel : Nat) :
    ∀ n, n < fuel → ofDigits (toDigitsFuel fuel n) = n := by
  induction fuel with
  | zero => intro n h; omega
  | succ fuel ih =>
      intro n h
      unfold toDigitsFuel
      by_cases h10 : n < 10
      · rw [if_pos h10]
        simp [ofDigits]
      · rw [if_neg h10]
        rw [ofDigits_append_singleton]
        have hdiv : n / 10 < n := Nat.div_lt_self (by omega) (by omega)
        rw [ih (n / 10) (by omega)]
        omega

lemma ofDigits_toDigits (n : Nat) : ofDigits (toDigits n) = n :=
  ofDigits_toDigitsFuel (n + 1) n (Nat.lt_succ_self n)

lemma toDigitsFuel_lt_ten (fuel : Nat) :
    ∀ n d, d ∈ toDigitsFuel fuel n → d < 10 := by
  induction fuel with
  | zero => intro n d h; cases h
  | succ fuel ih =>
      intro n d h
      unfold toDigitsFuel at h
      by_cases h10 : n < 10
      · rw [if_pos h10] at h
        rcases List.mem_singleton.mp h with rfl
        exact h10
      · rw [if_neg h10] at h
        rcases List.mem_append.mp h with h' | h'
        · exact ih _ _ h'
        · rcases List.mem_singleton.mp h' with rfl
          exact Nat.mod_lt _ (by omega)

lemma toDigits_lt_ten (n d : Nat) (h : d ∈ toDigits n) : d < 10 :=
  toDigitsFuel_lt_ten (n + 1) n d h

lemma toDigitsFuel_ne_nil (fuel n : Nat) (h : 0 < fuel) :
    toDigitsFuel fuel n ≠ [] := by
  cases fuel with
  | zero => omega
  | succ fuel =>
      unfold toDigitsFuel
      by_cases h10 : n < 10
      · rw [if_pos h10]; simp
      · rw [if_neg h10]; simp

lemma toDigits_ne_nil (n : Nat) : toDigits n ≠ [] :=
  toDigitsFuel_ne_nil (n + 1) n (Nat.succ_pos n)

lemma charDigit_digitChar (d : Nat) (h : d < 10) :
    charDigit (digitChar d) = some d := by
  interval_cases d <;> decide

lemma digitChar_ne_dash (d : Nat) (h : d < 10) : ¬(digitChar d = '-') := by
  intro he
  have h1 := charDigit_digitChar d h
  rw [he, show charDigit '-' = none from by decide] at h1
  exact Option.noConfusion h1

lemma digitChar_ne_plus (d : Nat) (h : d < 10) : ¬(digitChar d = '+') := by
  intro he
  have h1 := charDigit_digitChar d h
  rw [he, show charDigit '+' = none from by decide] at h1
  exact Option.noConfusion h1

lemma takeDigits_map_digitChar (ds : List Nat) (h : ∀ d ∈ ds, d < 10) :
    takeDigits (ds.map digitChar) = (ds, []) := by
  induction ds with
  | nil => rfl
  | cons d rest ih =>
      simp only [List.map_cons, takeDigits,
        charDigit_digitChar d (h d (List.mem_cons_self _ _))]
      rw [ih (fun x hx => h x (List.mem_cons_of_mem _ hx))]

lemma parseIntChars_intToChars (n : Int) :
    parseIntChars (intToChars n) = some n := by
  by_cases hn : n < 0
  · unfold intToChars
    rw [if_pos hn]
    have hne := toDigits_ne_nil n.natAbs
    obtain ⟨d, ds, hds⟩ : ∃ d ds, toDigits n.natAbs = d :: ds := by
      cases h : toDigits n.natAbs with
      | nil => exact absurd h hne
      | cons d ds => exact ⟨d, ds, rfl⟩
    have htake : takeDigits ((toDigits n.natAbs).map digitChar) = (d :: ds, []) := by
      rw [takeDigits_map_digitChar _ (toDigits_lt_ten n.natAbs), hds]
    simp only [parseIntChars, if_true]
    rw [htake]
    show some (-(ofDigits (d :: ds) : Int)) = some n
    have hval : ofDigits (d :: ds) = n.natAbs := by
      rw [← hds]; exact ofDigits_toDigits n.natAbs
    rw [hval]
    have hfin : -((n.natAbs : Nat) : Int) = n := by omega
    rw [hfin]
  · unfold intToChars
    rw [if_neg hn]
    have hne := toDigits_ne_nil n.toNat
    obtain ⟨d, ds, hds⟩ : ∃ d ds, toDigits n.toNat = d :: ds := by
      cases h : toDigits n.toNat with
      | nil => exact absurd h hne
      | cons d ds => exact ⟨d, ds, rfl⟩
    have hd10 : d < 10 := toDigits_lt_ten n.toNat d (by rw [hds]; exact List.mem_cons_self _ _)
    have htake : takeDigits ((toDigits n.toNat).map digitChar) = (d :: ds, []) := by
      rw [takeDigits_map_digitChar _ (toDigits_lt_ten n.toNat), hds]
    rw [hds] at htake ⊢
    simp only [List.map_cons, parseIntChars]
    rw [if_neg (digitChar_ne_dash d hd10), if_neg (digitChar_ne_plus d hd10)]
    rw [show digitChar d :: ds.map digitChar = ((d :: ds).map digitChar) from rfl, htake]
    show some ((ofDigits (d :: ds) : Nat) : Int) = some n
    have hval : ofDigits (d :: ds) = n.toNat := by
      rw [← hds]; exact ofDigits_toDigits n.toNat
    rw [hval]
    have hfin : ((n.toNat : Nat) : Int) = n := by omega
    rw [hfin]

lemma keyOfString_keyToString_num (n : Int) :
    keyOfString (keyToString (JsKey.num n)) = JsKey.num n := by
  simp only [keyToString, keyOfString, parseIntJs]
  rw [parseIntChars_intToChars]

lemma loadRecord_serializeRecord (r : Record)
    (hexp : ∃ t, r.expiresAt = JsNum.int t)
    (hmsg : r.messageId ≠ some "") (hsent : r.sentAt ≠ some 0) :
    loadRecord (serializeRecord r) = r := by
  obtain ⟨t, ht⟩ := hexp
  obtain ⟨e, m, s⟩ := r
  simp only at ht
  subst ht
  simp only [serializeRecord, loadRecord, jsonNum]
  congr 1
  · cases m with
    | none => rfl
    | some str =>
        have : ¬(str = "") := fun h => hmsg (by rw [h])
        simp [jsOrNullStr, this]
  · cases s with
    | none => rfl
    | some x =>
        have : ¬(x = 0) := fun h => hsent (by rw [h])
        simp [jsOrNullInt, this]

lemma mapHas_append (s t : Store) (k : JsKey) :
    mapHas (s ++ t) k = (mapHas s k || mapHas t k) := by
  simp [mapHas, List.any_append]

lemma loadStore_aux (store : Store) : ∀ acc : Store,
    (∀ p ∈ store, ∃ m, p.1 = JsKey.num m) →
    (∀ p ∈ store, loadRecord (serializeRecord p.2) = p.2) →
    (store.map Prod.fst).Nodup →
    (∀ p ∈ store, mapHas acc p.1 = false) →
    (serializeStore store).foldl
      (fun acc p => mapSet acc (keyOfString p.1) (loadDiskVal p.2)) acc =
      acc ++ store := by
  induction store with
  | nil => intro acc _ _ _ _; simp [serializeStore]
  | cons q rest ih =>
      intro acc hkeys hwf hnodup hdisj
      obtain ⟨k, r⟩ := q
      simp only [serializeStore, List.map_cons, List.foldl_cons]
      obtain ⟨m, hm⟩ := hkeys (k, r) (List.mem_cons_self _ _)
      simp only at hm
      have hkey : keyOfString (keyToString k) = k := by
        rw [hm]; exact keyOfString_keyToString_num m
      have hrec : loadDiskVal (DiskVal.record (serializeRecord r)) = r := by
        simp only [loadDiskVal]
        exact hwf (k, r) (List.mem_cons_self _ _)
      rw [hkey, hrec]
      have hset : mapSet acc k r = acc ++ [(k, r)] := by
        unfold mapSet
        rw [if_neg (by rw [hdisj (k, r) (List.mem_cons_self _ _)]; simp)]
      rw [hset]
      have hnodup' : (rest.map Prod.fst).Nodup := (List.nodup_cons.mp hnodup).2
      have hknotin : k ∉ rest.map Prod.fst := by
        have := (List.nodup_cons.mp hnodup).1
        simpa using this
      have hdisj' : ∀ p ∈ rest, mapHas (acc ++ [(k, r)]) p.1 = false := by
        intro p hp
        rw [mapHas_append]
        have h1 : mapHas acc p.1 = false :=
          hdisj p (List.mem_cons_of_mem _ hp)
        have h2 : mapHas [(k, r)] p.1 = false := by
          simp only [mapHas, List.any_cons, List.any_nil, Bool.or_false]
          have : ¬(k = p.1) := fun he =>
            hknotin (he ▸ List.mem_map.mpr ⟨p, hp, rfl⟩)
          simp [this]
        rw [h1, h2]
        rfl
      have hrest := ih (acc ++ [(k, r)])
        (fun p hp => hkeys p (List.mem_cons_of_mem _ hp))
        (fun p hp => hwf p (List.mem_cons_of_mem _ hp))
        hnodup' hdisj'
      rw [show (rest.map
            (fun p => (keyToString p.1, DiskVal.record (serializeRecord p.2)))) =
          serializeStore rest from rfl]
      rw [hrest, List.append_assoc, List.singleton_append]

lemma serializeStore_no_legacy (s : Store) :
    (serializeStore s).any
      (fun p => match p.2 with | DiskVal.num _ => true | _ => false) = false := by
  induction s with
  | nil => rfl
  | cons q rest ih => simpa [serializeStore] using ih

lemma cleanupExpiredOffers_noop (now : Int) (st : TrackerState)
    (h : ∀ p ∈ st.seenOffers, jsLe p.2.expiresAt (JsNum.int now) = false) :
    cleanupExpiredOffers now st = (st, 0) := by
  unfold cleanupExpiredOffers
  have h1 : st.seenOffers.filter
      (fun p => !jsLe p.2.expiresAt (JsNum.int now)) = st.seenOffers :=
    List.filter_eq_self.mpr (fun p hp => by rw [h p hp]; rfl)
  have h2 : st.seenOffers.filter
      (fun p => jsLe p.2.expiresAt (JsNum.int now)) = [] :=
    List.filter_eq_nil_iff.mpr (fun p hp => by simp [h p hp])
  simp only [h1, h2, List.length_nil, Nat.lt_irrefl, if_false]

lemma cleanup_seenOffers (now : Int) (st : TrackerState) :
    ((cleanupExpiredOffers now st).1).seenOffers =
      st.seenOffers.filter (fun p => !jsLe p.2.expiresAt (JsNum.int now)) := by
  unfold cleanupExpiredOffers
  by_cases h : 0 < (st.seenOffers.filter
      (fun p => jsLe p.2.expiresAt (JsNum.int now))).length
  · rw [if_pos h]; rfl
  · rw [if_neg h]

lemma mem_cleanup_not_expired (now : Int) (st : TrackerState)
    (p : JsKey × Record) (hp : p ∈ ((cleanupExpiredOffers now st).1).seenOffers) :
    p ∈ st.seenOffers ∧ jsLe p.2.expiresAt (JsNum.int now) = false := by
  rw [cleanup_seenOffers] at hp
  have := List.mem_filter.mp hp
  exact ⟨this.1, by simpa using this.2⟩

lemma loadTracker_serialize (now : Int) (st : TrackerState)
    (hkeys : ∀ p ∈ st.seenOffers, ∃ m, p.1 = JsKey.num m)
    (hnodup : (st.seenOffers.map Prod.fst).Nodup)
    (hwf : ∀ p ∈ st.seenOffers, recordWF now p.2) :
    loadTracker now (serializeStore st.seenOffers) =
      ⟨st.seenOffers, serializeStore st.seenOffers, 0⟩ := by
  have hload : loadStore (serializeStore st.seenOffers) = st.seenOffers := by
    unfold loadStore
    rw [loadStore_aux st.seenOffers [] hkeys
      (fun p hp => loadRecord_serializeRecord p.2
        (((hwf p hp).1).imp (fun t ht => ht.1)) (hwf p hp).2.1 (hwf p hp).2.2)
      hnodup (fun p hp => rfl)]
    exact List.nil_append _
  have hnone : ∀ p ∈ st.seenOffers, jsLe p.2.expiresAt (JsNum.int now) = false := by
    intro p hp
    obtain ⟨⟨t, ht, hlt⟩, _, _⟩ := hwf p hp
    rw [ht]
    simp only [jsLe, decide_eq_false_iff_not]
    omega
  simp only [loadTracker]
  rw [serializeStore_no_legacy]
  simp only [Bool.false_eq_true, if_false]
  rw [hload]
  rw [cleanupExpiredOffers_noop now
    ⟨st.seenOffers, serializeStore st.seenOffers, 0⟩ hnone]

/-- Claim C1 (code bug): `checkForNewOffersInternal` runs
`cleanupExpiredOffers` as its very first step — before aggregation and
new-offer classification — and contains no inactive-offer step at all, so
expiry-based eviction is not executed after inactive-offer processing.  At
`now = 100`, tracked offer 3 (stored handle m3, `expiresAt = 50`), absent
from the merged result of a cycle with a reachable source, is evicted by
that initial cleanup: the record and its handle are silently gone, nothing
was sent and no retraction could ever happen — the defect the repository
CHANGELOG (1.2.1) reports as fixed, yet still present in this cycle. -/
theorem cycle_evicts_before_any_retraction :
    ((cleanupExpiredOffers 100 c1Tracker).1).seenOffers = [] ∧
    (checkForNewOffersInternal sampleParse 100 [] c1Tracker).1.seenOffers = [] ∧
    (checkForNewOffersInternal sampleParse 100 [] c1Tracker).2 = [] := by
  decide

/-- Claim C2 (code bug): tracked offer 5 (not expired, stored handle m5)
is absent from the cycle's merged offer set, yet the cycle returns the
tracker completely unchanged and sends nothing: no deletion of m5 is
attempted and no record is removed.  The cycle does not even consume the
reachable-source set, and never calls `deleteMessage` or `removeOffer`, so
"exactly one deletion and exactly one removal" cannot happen. -/
theorem cycle_never_attempts_inactive_deletion :
    checkForNewOffersInternal sampleParse 100 [] c2Tracker = (c2Tracker, []) := by
  decide

/-- Claim C3 counterexample: one offer whose own expiry (50) already lies
in the past at `now = 100`, with an unchanged external offer set across
two consecutive cycles starting from the empty tracker.  The second cycle
is not a no-op: its initial cleanup evicts the record stored by the first
cycle, the unchanged offer classifies as new again, and a second
notification is sent (the notified-id list of run two is nonempty). -/
theorem second_cycle_resends_expired_offer :
    (checkForNewOffersInternal sampleParse 100 c3Offers
      (checkForNewOffersInternal sampleParse 100 c3Offers trackerEmpty).1).2 ≠ [] := by
  decide

/-- Claim C4 counterexample: two sources both report the untracked offer 7
in one cycle.  `getNewOffers` filters against the pre-send store, so both
copies classify as new and the send loop emits one notification per copy:
two notifications, not exactly one, although only one record is created. -/
theorem duplicate_offer_sends_two_notifications :
    (checkForNewOffersInternal sampleParse 100 c4Offers trackerEmpty).2 = [7, 7] ∧
    countKey (checkForNewOffersInternal sampleParse 100 c4Offers trackerEmpty).1.seenOffers
      (JsKey.num 7) = 1 := by
  decide

/-- Claim C5 (code bug): for an offer whose `expires_at` field is present
but unparseable, `markAsSeen` stores `expiresAt = NaN` instead of the
documented `now + 24h` fallback: `new Date(bad).getTime()` returns `NaN`
without throwing, so the catch-block fallback is dead code; the resulting
record also never satisfies the eviction comparison `expiresAt <= now`. -/
theorem unparseable_expiry_stores_nan :
    markAsSeen sampleParse 100 ⟨9, "alice", 1, some "not-a-date"⟩ none [] =
      [(JsKey.num 9, ⟨JsNum.nan, none, some 100⟩)] ∧
    JsNum.nan ≠ JsNum.int (100 + defaultMaxAge) ∧
    jsLe JsNum.nan (JsNum.int 100) = false := by
  decide

/-- Claim C7 (code bug): the cycle sends a notification for the new offer
4 and stores a record for it, but the stored `messageId` is `null`: the
message object returned by the notifier is discarded by the send loop and
`addOffers` marks every offer seen with the default `null` handle; the
record shape (`expiresAt`, `messageId`, `sentAt`) moreover contains no
source/coordinator field at all. -/
theorem record_stores_null_message_handle :
    (checkForNewOffersInternal sampleParse 100 [⟨4, "alice", 1, none⟩] trackerEmpty).2 = [4] ∧
    (checkForNewOffersInternal sampleParse 100 [⟨4, "alice", 1, none⟩] trackerEmpty).1.seenOffers =
      [(JsKey.num 4, ⟨JsNum.int (100 + defaultMaxAge), none, some 100⟩)] := by
  decide

/-- Claim C8: if the timer fires while a check is already in progress, the
overlap guard of `checkForNewOffers` drops that tick rather than queueing
it: the tracker state is returned unchanged (no store mutation, no save)
and no notifications are sent, so a second cycle never starts while one is
in flight. -/
theorem busy_tick_dropped (parseDate : String → Option Int) (now : Int)
    (offers : List Offer) (flag : Bool) (st : TrackerState) (h : flag = true) :
    checkForNewOffers parseDate now offers flag st = (true, st, []) := by
  subst h
  rfl

/-- Witness for the overlap-guard theorem at a concrete busy state. -/
theorem busy_tick_dropped_witness :
    checkForNewOffers sampleParse 100 [⟨1, "alice", 1, none⟩] true c2Tracker =
      (true, c2Tracker, []) :=
  busy_tick_dropped sampleParse 100 [⟨1, "alice", 1, none⟩] true c2Tracker rfl

/-- Claim C9: `cleanupExpiredOffers` (the spec's `evictExpired(now)`)
keeps exactly the records whose `expiresAt <= now` fails under the
JavaScript comparison (so it removes exactly the records satisfying it),
returns the number of records removed, and performs a durable save if and
only if at least one record was removed. -/
theorem cleanupExpiredOffers_spec (now : Int) (st : TrackerState) :
    (∀ p : JsKey × Record,
        p ∈ ((cleanupExpiredOffers now st).1).seenOffers ↔
          p ∈ st.seenOffers ∧ jsLe p.2.expiresAt (JsNum.int now) = false) ∧
    (cleanupExpiredOffers now st).2 =
      (st.seenOffers.filter (fun p => jsLe p.2.expiresAt (JsNum.int now))).length ∧
    ((cleanupExpiredOffers now st).1).saves =
      st.saves + (if 0 < (cleanupExpiredOffers now st).2 then 1 else 0) := by
  refine ⟨?_, ?_, ?_⟩
  · intro p
    constructor
    · exact mem_cleanup_not_expired now st p
    · intro ⟨hmem, hfalse⟩
      rw [cleanup_seenOffers]
      exact List.mem_filter.mpr ⟨hmem, by simp [hfalse]⟩
  · unfold cleanupExpiredOffers
    by_cases h : 0 < (st.seenOffers.filter
        (fun p => jsLe p.2.expiresAt (JsNum.int now))).length
    · rw [if_pos h]
    · rw [if_neg h]
  · unfold cleanupExpiredOffers
    by_cases h : 0 < (st.seenOffers.filter
        (fun p => jsLe p.2.expiresAt (JsNum.int now))).length
    · rw [if_pos h]
      simp [saveTracker, h]
    · rw [if_neg h]
      simp [h]

lemma mem_reachableOf (responses : List (String × Except String Payload))
    (c : String) (h : c ∈ reachableOf responses) :
    c ∈ responses.map Prod.fst := by
  induction responses with
  | nil => cases h
  | cons q rest ih =>
      obtain ⟨c', resp'⟩ := q
      simp only [reachableOf] at h
      cases hg : getOrderBookFromCoordinator resp' with
      | error e =>
          rw [hg] at h
          exact List.mem_cons_of_mem _ (ih h)
      | ok offers =>
          rw [hg] at h
          rcases List.mem_cons.mp h with rfl | h'
          · exact List.mem_cons_self _ _
          · exact List.mem_cons_of_mem _ (ih h')

lemma notArray_not_reachable (c : String) :
    ∀ responses : List (String × Except String Payload),
      (responses.map Prod.fst).Nodup →
      (c, Except.ok Payload.notArray) ∈ responses →
      c ∉ reachableOf responses := by
  intro responses
  induction responses with
  | nil => intro _ h; cases h
  | cons q rest ih =>
      intro hnodup hmem
      obtain ⟨c', resp'⟩ := q
      have hnodup' : (rest.map Prod.fst).Nodup := (List.nodup_cons.mp hnodup).2
      have hnotin : c' ∉ rest.map Prod.fst := by
        simpa using (List.nodup_cons.mp hnodup).1
      rcases List.mem_cons.mp hmem with heq | hmem'
      · have h1 : c = c' := congrArg Prod.fst heq
        have h2 : Except.ok Payload.notArray = resp' := congrArg Prod.snd heq
        subst h1
        subst h2
        simp only [reachableOf, getOrderBookFromCoordinator]
        intro hc
        exact hnotin (mem_reachableOf rest c hc)
      · have hckeys : c ∈ rest.map Prod.fst :=
          List.mem_map.mpr ⟨(c, Except.ok Payload.notArray), hmem', rfl⟩
        simp only [reachableOf]
        cases hg : getOrderBookFromCoordinator resp' with
        | error e => exact ih hnodup' hmem'
        | ok offers =>
            intro hc
            rcases List.mem_cons.mp hc with rfl | hc'
            · exact hnotin hckeys
            · exact ih hnodup' hmem' hc'

lemma valid_array_reachable (c : String) (offers : List Offer) :
    ∀ responses : List (String × Except String Payload),
      (c, Except.ok (Payload.arr offers)) ∈ responses →
      c ∈ reachableOf responses := by
  intro responses
  induction responses with
  | nil => intro h; cases h
  | cons q rest ih =>
      intro hmem
      obtain ⟨c', resp'⟩ := q
      rcases List.mem_cons.mp hmem with heq | hmem'
      · have h1 : c = c' := congrArg Prod.fst heq
        have h2 : Except.ok (Payload.arr offers) = resp' := congrArg Prod.snd heq
        subst h1
        subst h2
        simp only [reachableOf, getOrderBookFromCoordinator]
        exact List.mem_cons_self _ _
      · simp only [reachableOf]
        cases hg : getOrderBookFromCoordinator resp' with
        | error e => exact ih hmem'
        | ok offers' => exact List.mem_cons_of_mem _ (ih hmem')

/-- Claim C6: in the aggregation result of `getOrderBook` over one cycle's
per-coordinator fetch outcomes (coordinator names pairwise distinct), a
source that returned a syntactically invalid payload (not an array) is
absent from the reachable set — it is classified as unreachable, not as a
reachable source with zero offers — while a source that returned a
structurally valid empty listing is in the reachable set. -/
theorem invalid_payload_source_unreachable
    (responses : List (String × Except String Payload)) (c : String)
    (hnodup : (responses.map Prod.fst).Nodup) :
    ((c, Except.ok Payload.notArray) ∈ responses →
        c ∉ (getOrderBook responses).2) ∧
    ((c, Except.ok (Payload.arr [])) ∈ responses →
        c ∈ (getOrderBook responses).2) :=
  ⟨fun h => notArray_not_reachable c responses hnodup h,
   fun h => valid_array_reachable c [] responses h⟩

/-- Witness for the reachability theorem at a concrete response set. -/
theorem invalid_payload_source_unreachable_witness :
    "alice" ∉ (getOrderBook c6Responses).2 ∧
      "veneto" ∈ (getOrderBook c6Responses).2 :=
  ⟨(invalid_payload_source_unreachable c6Responses "alice" (by decide)).1
      (List.mem_cons_self _ _),
   (invalid_payload_source_unreachable c6Responses "veneto" (by decide)).2
      (List.mem_cons_of_mem _ (List.mem_cons_self _ _))⟩

/-- Claim C10 counterexample: a store tracking only the integer id 1,
whose record has already expired (`expiresAt = 0`), does not survive
`save()` followed by a fresh `initialize()` at `now = 100`: `initialize`
runs the startup expiry cleanup, so the reloaded tracked-id set is empty
rather than `{1}`. -/
theorem roundtrip_drops_expired_record :
    (loadTracker 100
      (saveTracker ⟨[(JsKey.num 1, ⟨JsNum.int 0, none, none⟩)], [], 0⟩).disk).seenOffers =
      [] := by
  decide

lemma cycle_store_unexpired (parseDate : String → Option Int) (now : Int)
    (offers : List Offer) (st : TrackerState)
    (h : ∀ o ∈ offers, jsLe (resolveExpiry parseDate now o) (JsNum.int now) = false) :
    ∀ p ∈ ((checkForNewOffersInternal parseDate now offers st).1).seenOffers,
      jsLe p.2.expiresAt (JsNum.int now) = false := by
  intro p hp
  unfold checkForNewOffersInternal at hp
  by_cases hpos : 0 <
      (getNewOffers ((cleanupExpiredOffers now st).1).seenOffers offers).length
  · rw [if_pos hpos] at hp
    simp only [addOffers, saveTracker] at hp
    rcases mem_addOffersStore _ _ _ _ _ hp with hmem | ⟨o, ho, hpeq⟩
    · exact (mem_cleanup_not_expired now st p hmem).2
    · rw [hpeq]
      exact h o (List.mem_of_mem_filter ho)
  · rw [if_neg hpos] at hp
    exact (mem_cleanup_not_expired now st p hp).2

lemma cycle_store_tracks_offers (parseDate : String → Option Int) (now : Int)
    (offers : List Offer) (st : TrackerState) :
    ∀ o ∈ offers,
      mapHas ((checkForNewOffersInternal parseDate now offers st).1).seenOffers
        (JsKey.num o.id) = true := by
  intro o ho
  unfold checkForNewOffersInternal
  by_cases hpos : 0 <
      (getNewOffers ((cleanupExpiredOffers now st).1).seenOffers offers).length
  · rw [if_pos hpos]
    simp only [addOffers, saveTracker]
    by_cases hhas : mapHas ((cleanupExpiredOffers now st).1).seenOffers
        (JsKey.num o.id) = true
    · exact mapHas_addOffersStore_of _ _ _ _ _ hhas
    · have hf : mapHas ((cleanupExpiredOffers now st).1).seenOffers
          (JsKey.num o.id) = false := by
        cases hb : mapHas ((cleanupExpiredOffers now st).1).seenOffers (JsKey.num o.id)
        · rfl
        · exact absurd hb hhas
      have hmemnew : o ∈ getNewOffers ((cleanupExpiredOffers now st).1).seenOffers offers :=
        List.mem_filter.mpr ⟨ho, by simp [isNew, hf]⟩
      exact mapHas_addOffersStore_mem _ _ _ _ _ hmemnew
  · rw [if_neg hpos]
    have hempty : getNewOffers ((cleanupExpiredOffers now st).1).seenOffers offers = [] :=
      List.length_eq_zero.mp (Nat.eq_zero_of_not_pos hpos)
    have hnotnew := List.filter_eq_nil_iff.mp hempty o ho
    cases hb : mapHas ((cleanupExpiredOffers now st).1).seenOffers (JsKey.num o.id)
    · exact absurd (by simp [isNew, hb]) hnotnew
    · rfl

/-- Claim C3 (amended): running a reconciliation cycle twice with an
unchanged external offer set is a no-op on the second run — no
notifications sent, no state change (hence no saves; the cycle attempts no
deletions at all) — provided every offer resolves to an expiry that has
not yet passed at cycle time.  (Without that proviso the claim fails: an
offer already past its expiry is evicted by the second run's initial
cleanup and re-notified, see the counterexample.) -/
theorem cycle_idempotent_of_unexpired (parseDate : String → Option Int)
    (now : Int) (offers : List Offer) (st : TrackerState)
    (h : ∀ o ∈ offers, jsLe (resolveExpiry parseDate now o) (JsNum.int now) = false) :
    checkForNewOffersInternal parseDate now offers
      (checkForNewOffersInternal parseDate now offers st).1 =
      ((checkForNewOffersInternal parseDate now offers st).1, []) := by
  have hA := cycle_store_unexpired parseDate now offers st h
  have hB := cycle_store_tracks_offers parseDate now offers st
  set r1 := (checkForNewOffersInternal parseDate now offers st).1 with hr1
  have hempty : getNewOffers r1.seenOffers offers = [] :=
    List.filter_eq_nil_iff.mpr (fun o ho => by simp [isNew, hB o ho])
  simp only [checkForNewOffersInternal, cleanupExpiredOffers_noop now r1 hA,
    hempty, List.length_nil, Nat.lt_irrefl, if_false]

/-- Witness for the amended idempotence theorem: one future-dated offer,
two consecutive runs from the empty tracker. -/
theorem cycle_idempotent_of_unexpired_witness :
    checkForNewOffersInternal sampleParse 100 [⟨2, "alice", 1, some "future"⟩]
      (checkForNewOffersInternal sampleParse 100
        [⟨2, "alice", 1, some "future"⟩] trackerEmpty).1 =
      ((checkForNewOffersInternal sampleParse 100
        [⟨2, "alice", 1, some "future"⟩] trackerEmpty).1, []) :=
  cycle_idempotent_of_unexpired sampleParse 100 [⟨2, "alice", 1, some "future"⟩]
    trackerEmpty
    (by intro o ho; rcases List.mem_singleton.mp ho with rfl; decide)

/-- Claim C4 (amended): when two sources both report an offer with the
same previously untracked id in one cycle, the cycle creates exactly one
record for that id but sends one notification per report — two
notifications, not one. -/
theorem duplicate_offer_single_record_two_sends
    (parseDate : String → Option Int) (now : Int) (i : Int)
    (c1 c2 : String) (cur1 cur2 : Int) (e1 e2 : Option String)
    (st : TrackerState) (h : mapHas st.seenOffers (JsKey.num i) = false) :
    (checkForNewOffersInternal parseDate now
      [⟨i, c1, cur1, e1⟩, ⟨i, c2, cur2, e2⟩] st).2 = [i, i] ∧
    countKey (checkForNewOffersInternal parseDate now
      [⟨i, c1, cur1, e1⟩, ⟨i, c2, cur2, e2⟩] st).1.seenOffers (JsKey.num i) = 1 := by
  have hst1 : mapHas ((cleanupExpiredOffers now st).1).seenOffers (JsKey.num i) = false := by
    rw [cleanup_seenOffers]
    exact mapHas_filter _ _ _ h
  have hnew : getNewOffers ((cleanupExpiredOffers now st).1).seenOffers
      [⟨i, c1, cur1, e1⟩, ⟨i, c2, cur2, e2⟩] =
      [⟨i, c1, cur1, e1⟩, ⟨i, c2, cur2, e2⟩] := by
    simp [getNewOffers, isNew, hst1]
  simp only [checkForNewOffersInternal, hnew]
  rw [if_pos (by simp)]
  refine ⟨by simp, ?_⟩
  simp only [addOffers, saveTracker, addOffersStore, List.foldl_cons, List.foldl_nil]
  unfold markAsSeen
  rw [countKey_mapSet_has _ _ _ (mapHas_mapSet_self _ _ _)]
  rw [countKey_mapSet_not_has _ _ _ hst1]
  rw [countKey_eq_zero _ _ hst1]

/-- Witness for the amended duplicate-offer theorem at offer id 7 against
the empty tracker. -/
theorem duplicate_offer_single_record_two_sends_witness :
    (checkForNewOffersInternal sampleParse 100
      [⟨7, "alice", 1, none⟩, ⟨7, "veneto", 1, none⟩] trackerEmpty).2 = [7, 7] ∧
    countKey (checkForNewOffersInternal sampleParse 100
      [⟨7, "alice", 1, none⟩, ⟨7, "veneto", 1, none⟩] trackerEmpty).1.seenOffers
      (JsKey.num 7) = 1 :=
  duplicate_offer_single_record_two_sends sampleParse 100 7 "alice" "veneto"
    1 1 none none trackerEmpty rfl

/-- Claim C10 (amended): for every store state whose tracked ids are all
integers (pairwise distinct, as `Map` keys are) and whose records are
well formed — an actual non-`NaN` expiry still in the future at reload
time, no empty-string `messageId`, no zero `sentAt` — `save()` followed by
a fresh `initialize()` restores exactly the same tracked-id set with the
same per-record fields.  A tracked id that is a non-numeric string is not
preserved: `parseInt` collapses it to the `NaN` key on reload.  (The
well-formedness proviso is forced: `initialize` runs expiry cleanup on
startup, so an already-expired record does not survive the round trip,
see the counterexample.) -/
theorem save_load_roundtrip (now : Int) (st : TrackerState)
    (hkeys : ∀ p ∈ st.seenOffers, ∃ m, p.1 = JsKey.num m)
    (hnodup : (st.seenOffers.map Prod.fst).Nodup)
    (hwf : ∀ p ∈ st.seenOffers, recordWF now p.2) :
    (loadTracker now (saveTracker st).disk).seenOffers = st.seenOffers ∧
    (loadTracker 100 (saveTracker
      ⟨[(JsKey.str "abc", ⟨JsNum.int 200, none, none⟩)], [], 0⟩).disk).seenOffers.map
        Prod.fst = [JsKey.nan] := by
  constructor
  · rw [show (saveTracker st).disk = serializeStore st.seenOffers from rfl,
      loadTracker_serialize now st hkeys hnodup hwf]
  · decide

/-- Witness for the round-trip theorem at a concrete one-record store. -/
theorem save_load_roundtrip_witness :
    (loadTracker 100 (saveTracker
      ⟨[(JsKey.num 1, ⟨JsNum.int 200, some "m", some 5⟩)], [], 0⟩).disk).seenOffers =
      [(JsKey.num 1, ⟨JsNum.int 200, some "m", some 5⟩)] :=
  (save_load_roundtrip 100 ⟨[(JsKey.num 1, ⟨JsNum.int 200, some "m", some 5⟩)], [], 0⟩
    (fun p hp => by rcases List.mem_singleton.mp hp with rfl; exact ⟨1, rfl⟩)
    (by decide)
    (fun p hp => by
      rcases List.mem_singleton.mp hp with rfl
      exact ⟨⟨200, rfl, by norm_num⟩, by decide, by decide⟩)).1
